import Mathlib

/-
Verification of the gopacket packet-decoding engine (packet.go).

The Go source is shallowly embedded as follows.

* Byte buffers are `List Nat`.
* Go `error` values produced while decoding are their message strings (`GoErr`).
* A `Layer` is either an ordinary protocol layer (a kind tag plus the remaining
  payload bytes it exposes via `LayerPayload`) or a `DecodeFailure` layer
  (`Layer.failureL`), which carries the captured cause and the undigested data.
  `DecodeFailure`'s accessors live in decode.go, which is not part of the
  sources at hand; its `LayerPayload` is modelled from the spec (see below).
* The shared `packet` struct of the source becomes `PState`: data, the layer
  list, the `last` pointer, the capture info and the five role pointers.
  `SetLinkLayer` .. `SetErrorLayer`, `AddLayer`, `recoverDecodeError` are
  transcribed one-to-one.
* A decoder body is a syntax tree `DProg`: the sequence of `PacketBuilder`
  calls it performs, with the value returned by each `NextDecoder` call fed to
  the continuation, terminated by returning (`ret`) or panicking (`fault`).
  A `Decoder` is a function from the handed buffer to such a body, so the
  model quantifies over arbitrary (well-founded) decoder behaviour.
* The eager engine interprets a `DProg` with `eagerDecode` (NextDecoder is
  invoked immediately, panics propagate, returned errors go to the caller),
  wrapped by `initialDecode` which mirrors the panic/recover protocol.
* The lazy engine interprets a `DProg` with `lazyDecode` (NextDecoder merely
  stores the pending decoder), with `decodeNextLayer` as the single decode
  step and fuelled loops for the accessors (the Go loops carry no fuel; a
  chain of decoders can genuinely run forever, so fuel expresses "enough
  iterations").
-/

/-- Go error values that decoders return or panic with, by message. -/
abbrev GoErr := String

/-- Layer kind tags (`LayerType`). `fail` is the kind of `DecodeFailure`
layers (spec: FailureLayer has kind = error). -/
inductive LType where
  | fail
  | lt (n : Nat)
deriving DecidableEq, Repr

/-- A decoded layer: an ordinary protocol layer carrying its kind and its
remaining payload, or a `DecodeFailure` carrying the cause and the undigested
bytes. -/
inductive Layer where
  | proto (t : LType) (payload : List Nat)
  | failureL (err : GoErr) (data : List Nat)
deriving DecidableEq, Repr

/-- `Layer.LayerType`. For `DecodeFailure` this is the error kind. -/
def Layer.LayerType : Layer → LType
  | .proto t _ => t
  | .failureL _ _ => .fail

/-- `Layer.LayerPayload`. For ordinary layers, the remaining bytes to hand to
the next decode step. Modelled from the spec: `DecodeFailure` (decode.go, not
among the sources at hand) is a terminal layer holding the *undigested
remainder* as its contents; it exposes no further payload to decode, so its
`LayerPayload` is empty. -/
def Layer.LayerPayload : Layer → List Nat
  | .proto _ pl => pl
  | .failureL _ _ => []

/-- `CaptureInfo` (time.Time is modelled as a Nat timestamp). -/
structure CaptureInfo where
  Populated : Bool := false
  Timestamp : Nat := 0
  CaptureLength : Nat := 0
  Length : Nat := 0
deriving DecidableEq, Repr

/-- The five role-pointer slots of `packet`. -/
inductive Role where
  | link
  | network
  | transport
  | application
  | error
deriving DecidableEq, Repr

/-- The shared `packet` struct: the whole packet data, the decoded layers in
append order, the `last` added layer, capture info, and the role pointers. -/
structure PState where
  data : List Nat
  layers : List Layer := []
  last : Option Layer := none
  capInfo : CaptureInfo := {}
  link : Option Layer := none
  network : Option Layer := none
  transport : Option Layer := none
  application : Option Layer := none
  failure : Option Layer := none
deriving DecidableEq, Repr

/-- The fresh packet state `NewPacket` builds around a buffer. -/
def pstate0 (data : List Nat) : PState := { data := data }

/-- `packet.SetLinkLayer`: first write wins. -/
def PState.SetLinkLayer (p : PState) (l : Layer) : PState :=
  if p.link = none then { p with link := some l } else p

/-- `packet.SetNetworkLayer`: first write wins. -/
def PState.SetNetworkLayer (p : PState) (l : Layer) : PState :=
  if p.network = none then { p with network := some l } else p

/-- `packet.SetTransportLayer`: first write wins. -/
def PState.SetTransportLayer (p : PState) (l : Layer) : PState :=
  if p.transport = none then { p with transport := some l } else p

/-- `packet.SetApplicationLayer`: first write wins. -/
def PState.SetApplicationLayer (p : PState) (l : Layer) : PState :=
  if p.application = none then { p with application := some l } else p

/-- `packet.SetErrorLayer`: first write wins. -/
def PState.SetErrorLayer (p : PState) (l : Layer) : PState :=
  if p.failure = none then { p with failure := some l } else p

/-- Dispatch a role claim to the corresponding `Set*Layer` method. -/
def setRole (r : Role) (l : Layer) (p : PState) : PState :=
  match r with
  | .link => p.SetLinkLayer l
  | .network => p.SetNetworkLayer l
  | .transport => p.SetTransportLayer l
  | .application => p.SetApplicationLayer l
  | .error => p.SetErrorLayer l

/-- Read a role pointer. -/
def getRole (r : Role) (p : PState) : Option Layer :=
  match r with
  | .link => p.link
  | .network => p.network
  | .transport => p.transport
  | .application => p.application
  | .error => p.failure

/-- `packet.AddLayer`: append to the layer list and update `last`. -/
def PState.AddLayer (p : PState) (l : Layer) : PState :=
  { p with layers := p.layers ++ [l], last := some l }

/-- The body of `packet.recoverDecodeError` when `recover()` yields the
non-nil value `r`: build a `DecodeFailure` whose data is the whole buffer if
no layer was added yet, otherwise the last layer's payload, and append it.
Note that it only calls `AddLayer`; in particular it does not touch the
`failure` role pointer and does not clear a lazy packet's pending decoder. -/
def recoverDecodeError (p : PState) (r : GoErr) : PState :=
  if p.last = none then
    p.AddLayer (.failureL r p.data)
  else
    p.AddLayer (.failureL r ((Option.getD p.last (.proto (.lt 0) [])).LayerPayload))

/-- The buffer a decode step works on: `d := p.data; if p.last != nil
{ d = p.last.LayerPayload() }`. -/
def payloadOf (p : PState) : List Nat :=
  match p.last with
  | none => p.data
  | some l => l.LayerPayload

/-- `nilDecoderError` (packet.go line 147). -/
def nilDecoderError : GoErr :=
  "NextDecoder passed nil decoder, probably an unsupported decode type"

/-- The error built by `eagerPacket.NextDecoder` when no layer exists yet. -/
def noLayersError : GoErr := "NextDecoder called, but no layers added yet"

/-- A decoder body: the trace of `PacketBuilder` calls it performs on the
engine, branching on each `NextDecoder` result, ending by returning
(`ret none` = nil error, `ret (some e)` = error) or panicking (`fault`).
`nextNil` is a `NextDecoder(nil)` call; `nextDec d k` passes the non-nil
decoder `d` (itself a function from the buffer it will be handed to its own
body) and continues as `k` applied to `NextDecoder`'s return value. -/
inductive DProg where
  | ret (e : Option GoErr)
  | fault (m : GoErr)
  | addLayer (l : Layer) (k : DProg)
  | claimRole (r : Role) (l : Layer) (k : DProg)
  | nextNil (k : Option GoErr → DProg)
  | nextDec (d : List Nat → DProg) (k : Option GoErr → DProg)

/-- A decoder: from the handed buffer to the body it executes. -/
abbrev Decoder := List Nat → DProg

/-- How a Go call finished: a normal return carrying the error result, or a
propagating panic. -/
inductive GoOut where
  | ret (e : Option GoErr)
  | panicked (m : GoErr)
deriving DecidableEq, Repr

/-- Run a decoder body against the eager engine (`eagerPacket` as the
`PacketBuilder`). `nextDec` mirrors `eagerPacket.NextDecoder`: nil decoder
and no-layer-yet produce synchronous errors, an empty payload returns nil
without invoking, otherwise the next decoder runs immediately in the same
call stack; its returned error is handed back to the calling decoder, while
a panic propagates. -/
def eagerDecode : DProg → PState → PState × GoOut
  | .ret e, st => (st, .ret e)
  | .fault m, st => (st, .panicked m)
  | .addLayer l k, st => eagerDecode k (st.AddLayer l)
  | .claimRole r l k, st => eagerDecode k (setRole r l st)
  | .nextNil k, st => eagerDecode (k (some nilDecoderError)) st
  | .nextDec d k, st =>
      match st.last with
      | none => eagerDecode (k (some noLayersError)) st
      | some lst =>
          if lst.LayerPayload = [] then
            eagerDecode (k none) st
          else
            match eagerDecode (d lst.LayerPayload) st with
            | (st2, .panicked m) => (st2, .panicked m)
            | (st2, .ret e) => eagerDecode (k e) st2

/-- The `defer p.recoverDecodeError()` wrapper around a decode call: a normal
nil return keeps the state, a returned error is panicked (`panic(err)`) and
recovered, a propagating panic is recovered. -/
def eagerHandle : PState × GoOut → PState
  | (st, .ret none) => st
  | (st, .ret (some e)) => recoverDecodeError st e
  | (st, .panicked m) => recoverDecodeError st m

/-- `eagerPacket.initialDecode`: run the decoder on the whole buffer under
the recover wrapper. -/
def initialDecode (dec : Decoder) (st : PState) : PState :=
  eagerHandle (eagerDecode (dec st.data) st)

/-- `eagerPacket.LinkLayer`: a plain field read. -/
def eagerLinkLayer (p : PState) : Option Layer := p.link

/-- `eagerPacket.NetworkLayer`: a plain field read. -/
def eagerNetworkLayer (p : PState) : Option Layer := p.network

/-- `eagerPacket.TransportLayer`: a plain field read. -/
def eagerTransportLayer (p : PState) : Option Layer := p.transport

/-- `eagerPacket.ApplicationLayer`: a plain field read. -/
def eagerApplicationLayer (p : PState) : Option Layer := p.application

/-- `eagerPacket.ErrorLayer`: a plain field read of the `failure` pointer. -/
def eagerErrorLayer (p : PState) : Option Layer := p.failure

/-- `eagerPacket.Layers`: a plain field read. -/
def eagerLayers (p : PState) : List Layer := p.layers

/-- `eagerPacket.Layer`: first layer of the given type. -/
def eagerLayer (t : LType) (p : PState) : Option Layer :=
  p.layers.find? (fun l => l.LayerType = t)

/-- The `lazyPacket` state: the shared packet state plus the pending `next`
decoder. -/
structure LState where
  ps : PState
  next : Option Decoder := none

/-- Run a decoder body against the lazy engine (`lazyPacket` as the
`PacketBuilder`). `nextDec` mirrors `lazyPacket.NextDecoder`: store the
decoder in `next` (overwriting any previous one) and return nil; there is no
no-layer-yet check and no invocation. -/
def lazyDecode : DProg → LState → LState × GoOut
  | .ret e, ls => (ls, .ret e)
  | .fault m, ls => (ls, .panicked m)
  | .addLayer l k, ls => lazyDecode k { ls with ps := ls.ps.AddLayer l }
  | .claimRole r l k, ls => lazyDecode k { ls with ps := setRole r l ls.ps }
  | .nextNil k, ls => lazyDecode (k (some nilDecoderError)) ls
  | .nextDec d k, ls => lazyDecode (k none) { ls with next := some d }

/-- `lazyPacket.decodeNextLayer`: if a decoder is pending, take the payload
of the last layer (or the whole buffer), clear the pending pointer, and, if
that payload is non-empty, run the decoder under the recover wrapper (a
returned error is panicked and recovered; the recovery appends the failure
layer but leaves `next` as the decoder left it). -/
def decodeNextLayer (ls : LState) : LState :=
  match ls.next with
  | none => ls
  | some nd =>
      if payloadOf ls.ps = [] then { ls with next := none }
      else
        match lazyDecode (nd (payloadOf ls.ps)) { ls with next := none } with
        | (ls2, .ret none) => ls2
        | (ls2, .ret (some e)) => { ls2 with ps := recoverDecodeError ls2.ps e }
        | (ls2, .panicked m) => { ls2 with ps := recoverDecodeError ls2.ps m }

/-- The `for p.next != nil { p.decodeNextLayer() }` loop of
`lazyPacket.Layers`, with fuel for the unbounded Go loop. -/
def lazyDrain : Nat → LState → LState
  | 0, ls => ls
  | n + 1, ls => if ls.next.isSome then lazyDrain n (decodeNextLayer ls) else ls

/-- `lazyPacket.Layers`: drain, then read the layer list. -/
def lazyLayers (fuel : Nat) (ls : LState) : List Layer × LState :=
  ((lazyDrain fuel ls).ps.layers, lazyDrain fuel ls)

/-- The lazy role-accessor loop: step while the requested role pointer is
unset and a decoder is pending, then read the pointer (fuelled). -/
def lazyRoleLoop (r : Role) : Nat → LState → Option Layer × LState
  | 0, ls => (getRole r ls.ps, ls)
  | n + 1, ls =>
      if (getRole r ls.ps).isNone && ls.next.isSome then
        lazyRoleLoop r n (decodeNextLayer ls)
      else (getRole r ls.ps, ls)

/-- `lazyPacket.LinkLayer`. -/
def lazyLinkLayer : Nat → LState → Option Layer × LState := lazyRoleLoop .link

/-- `lazyPacket.NetworkLayer`. -/
def lazyNetworkLayer : Nat → LState → Option Layer × LState := lazyRoleLoop .network

/-- `lazyPacket.TransportLayer`. -/
def lazyTransportLayer : Nat → LState → Option Layer × LState := lazyRoleLoop .transport

/-- `lazyPacket.ApplicationLayer`. -/
def lazyApplicationLayer : Nat → LState → Option Layer × LState := lazyRoleLoop .application

/-- `lazyPacket.ErrorLayer`: loops on the `failure` role pointer. -/
def lazyErrorLayer : Nat → LState → Option Layer × LState := lazyRoleLoop .error

/-- The stepping loop of `lazyPacket.Layer`: while a decoder is pending,
step once and scan only the newly appended layers (`numLayers` is the count
of layers already scanned). -/
def lazyLayerLoop (t : LType) : Nat → Nat → LState → Option Layer × LState
  | 0, _, ls => (none, ls)
  | n + 1, numLayers, ls =>
      if ls.next.isSome then
        let ls' := decodeNextLayer ls
        match (ls'.ps.layers.drop numLayers).find? (fun l => l.LayerType = t) with
        | some l => (some l, ls')
        | none => lazyLayerLoop t n ls'.ps.layers.length ls'
      else (none, ls)

/-- `lazyPacket.Layer`: scan the already-decoded layers first; only if the
type is not found there, start stepping. -/
def lazyLayer (t : LType) (fuel : Nat) (ls : LState) : Option Layer × LState :=
  match ls.ps.layers.find? (fun l => l.LayerType = t) with
  | some l => (some l, ls)
  | none => lazyLayerLoop t fuel ls.ps.layers.length ls

/-- `DecodeOptions`. -/
structure DecodeOptions where
  Lazy : Bool := false
  NoCopy : Bool := false
deriving DecidableEq, Repr

/-- A constructed packet: an eager one (fully decoded state) or a lazy one
(state plus pending decoder). -/
inductive PacketRep where
  | eagerP (ps : PState)
  | lazyP (ls : LState)

/-- `NewPacket`: build a lazy packet with the first decoder pending, or an
eager packet by running `initialDecode` before returning. The `NoCopy`
option only affects buffer aliasing, invisible at the level of byte values;
it is modelled separately (`newPacketBuffer`). -/
def NewPacket (data : List Nat) (firstLayerDecoder : Decoder)
    (options : DecodeOptions) : PacketRep :=
  if options.Lazy then
    .lazyP { ps := pstate0 data, next := some firstLayerDecoder }
  else
    .eagerP (initialDecode firstLayerDecoder (pstate0 data))

/-- Write `PacketRep`'s capture info: `*packet.CaptureInfo() = ci`. -/
def setCapInfo (p : PacketRep) (ci : CaptureInfo) : PacketRep :=
  match p with
  | .eagerP ps => .eagerP { ps with capInfo := ci }
  | .lazyP ls => .lazyP { ls with ps := { ls.ps with capInfo := ci } }

/-- Read a `PacketRep`'s capture info. -/
def getCapInfo (p : PacketRep) : CaptureInfo :=
  match p with
  | .eagerP ps => ps.capInfo
  | .lazyP ls => ls.ps.capInfo

/-
Buffer-ownership model for the `NoCopy` option. Decoding itself never writes
to a buffer, so the value-level model above can use plain byte lists; what
`NoCopy` changes is aliasing, so here buffers live in an explicit store of
numbered slots and the packet keeps a reference into it. A caller-visible
slice is a `(ref, offset, length)` view; the packet's `Data()` and every
layer payload are views of the single packet buffer reference.
-/

/-- A store of byte buffers: contents per reference, plus the next fresh
reference (every allocated reference is below `nextRef`). -/
structure Mem where
  bufs : Nat → List Nat
  nextRef : Nat

/-- Mutate the buffer behind a reference. -/
def writeBuf (m : Mem) (r : Nat) (v : List Nat) : Mem :=
  { m with bufs := fun i => if i = r then v else m.bufs i }

/-- Allocate a fresh buffer holding `v`; returns the new store and the fresh
reference. -/
def allocBuf (m : Mem) (v : List Nat) : Mem × Nat :=
  ({ bufs := fun i => if i = m.nextRef then v else m.bufs i,
     nextRef := m.nextRef + 1 }, m.nextRef)

/-- The buffer-ownership step of `NewPacket`: with `NoCopy` the packet keeps
the caller's reference; otherwise it allocates an independent copy
(`dataCopy := make(...); copy(dataCopy, data); data = dataCopy`). -/
def newPacketBuffer (m : Mem) (dataRef : Nat) (noCopy : Bool) : Mem × Nat :=
  if noCopy then (m, dataRef) else allocBuf m (m.bufs dataRef)

/-- Read a slice view `(ref, offset, length)` out of the store; the packet's
`Data()` is the full view of its buffer and each layer payload is such a
subview. -/
def view (m : Mem) (r off len : Nat) : List Nat :=
  ((m.bufs r).drop off).take len

/-
`PacketSource` streaming adapter. A `PacketDataSource` is modelled as the
finite list of results its successive `ReadPacketData` calls produce; once
the list is exhausted every further read reports end-of-stream (`io.EOF`).
-/

/-- A source-side error: the distinguished `io.EOF`, or any other error. -/
inductive SrcErr where
  | eof
  | other (msg : String)
deriving DecidableEq, Repr

/-- One `ReadPacketData` result: packet bytes with capture metadata, or an
error. -/
inductive ReadResult where
  | ok (data : List Nat) (ci : CaptureInfo)
  | err (e : SrcErr)
deriving Repr

/-- `PacketDataSource.ReadPacketData` on the modelled source: pop the next
result, reporting `io.EOF` when the source is exhausted. -/
def ReadPacketData : List ReadResult →
    ((List Nat × CaptureInfo) ⊕ SrcErr) × List ReadResult
  | [] => (.inr .eof, [])
  | .ok d ci :: rest => (.inl (d, ci), rest)
  | .err e :: rest => (.inr e, rest)

/-- `PacketSource`: a data source combined with a decoder and decode
options. -/
structure PacketSource where
  source : List ReadResult
  decoder : Decoder
  opts : DecodeOptions

/-- `PacketSource.NextPacket`: read once; on any error return it untouched
with no packet; on success build the packet with the configured options and
overwrite its capture info with the returned metadata. -/
def NextPacket (p : PacketSource) :
    (Option PacketRep × Option SrcErr) × PacketSource :=
  match ReadPacketData p.source with
  | (.inr e, rest) => ((none, some e), { p with source := rest })
  | (.inl (d, ci), rest) =>
      ((some (setCapInfo (NewPacket d p.decoder p.opts) ci), none),
       { p with source := rest })

/-- Iterate `NextPacket` `n` times, collecting the returned
(packet, error) pairs. -/
def runNextPackets : Nat → PacketSource →
    List (Option PacketRep × Option SrcErr) × PacketSource
  | 0, p => ([], p)
  | n + 1, p =>
      match NextPacket p with
      | (r, p') =>
          match runNextPackets n p' with
          | (rs, p'') => (r :: rs, p'')

/-- The loop body of `PacketSource.packetsToChannel`, unfolded over the
modelled source: each iteration calls `NextPacket`; on `io.EOF` close the
channel (stop, the returned list is the complete channel transcript); on a
nil error send the packet; on any other error ignore it and continue. -/
def packetsLoop (dec : Decoder) (opts : DecodeOptions) :
    List ReadResult → List PacketRep
  | [] => []
  | .err .eof :: _ => []
  | .err (.other _) :: rest => packetsLoop dec opts rest
  | .ok d ci :: rest =>
      setCapInfo (NewPacket d dec opts) ci :: packetsLoop dec opts rest

/-- `PacketSource.packetsToChannel` / `Packets`: the transcript of packets
sent to the channel before it is closed. -/
def packetsToChannel (p : PacketSource) : List PacketRep :=
  packetsLoop p.decoder p.opts p.source

/-
Well-behaved decoders, used for the eager/lazy equivalence. `NDec n` is a
decoder that chains at most `n` deep and whose body is a plain sequence of
`AddLayer`/`Set*Layer` calls ended by returning nil, returning an error,
panicking, or tail-chaining (`return p.NextDecoder(d)`).
-/

/-- One builder action of a well-behaved decoder body. -/
inductive BAct where
  | add (l : Layer)
  | claim (r : Role) (l : Layer)
deriving Repr

/-- How a well-behaved decoder body ends: return nil, return an error, panic,
or tail-chain to a next decoder of type `α`. -/
inductive NEnd (α : Type) where
  | ret (e : Option GoErr)
  | fault (m : GoErr)
  | chain (d : α)

/-- A well-behaved decoder body: its action list and its ending. -/
structure NStep (α : Type) where
  acts : List BAct
  fin : NEnd α

/-- Well-behaved decoders of chain depth at most `n` (a function from the
handed buffer to the body; depth 0 cannot chain). -/
def NDec : Nat → Type
  | 0 => List Nat → NStep Empty
  | n + 1 => List Nat → NStep (NDec n)

/-- Prepend an action list to a decoder-body tail. -/
def actsToProg : List BAct → DProg → DProg
  | [], t => t
  | .add l :: rest, t => .addLayer l (actsToProg rest t)
  | .claim r l :: rest, t => .claimRole r l (actsToProg rest t)

/-- Translate a well-behaved decoder into the general decoder model; a
tail-chain becomes a final `NextDecoder` call whose result is returned. -/
def toDec : (n : Nat) → NDec n → Decoder
  | 0, d => fun b =>
      actsToProg (d b).acts
        (match (d b).fin with
         | .ret e => .ret e
         | .fault m => .fault m
         | .chain x => nomatch x)
  | n + 1, d => fun b =>
      actsToProg (d b).acts
        (match (d b).fin with
         | .ret e => .ret e
         | .fault m => .fault m
         | .chain d' => .nextDec (toDec n d') (fun e => .ret e))

/-- Well-formedness of a well-behaved decoder: whenever a body tail-chains,
its action list has appended at least one layer, and the chained decoder is
well-formed in turn. -/
def NWF : (n : Nat) → NDec n → Prop
  | 0, _ => True
  | n + 1, d => ∀ b, match (d b).fin with
      | .chain d' => (∃ l, BAct.add l ∈ (d b).acts) ∧ NWF n d'
      | _ => True

/-- A lazy packet state fully drains to the packet state `q`: some number of
decode steps reaches `q` with no decoder pending. -/
def DrainsTo (ls : LState) (q : PState) : Prop :=
  ∃ n, lazyDrain n ls = { ps := q, next := none }

/-
Role-pointer lemmas: claiming a role is a no-op once the role is set, and no
engine operation ever clears or reassigns a set role pointer.
-/

lemma getRole_setRole_preserve (r r' : Role) (l : Layer) (p : PState) (x : Layer)
    (h : getRole r' p = some x) : getRole r' (setRole r l p) = some x := by
  cases r <;> cases r' <;>
    simp_all [setRole, getRole, PState.SetLinkLayer, PState.SetNetworkLayer,
      PState.SetTransportLayer, PState.SetApplicationLayer, PState.SetErrorLayer] <;>
    split <;> simp_all

lemma getRole_setRole_none (r : Role) (l : Layer) (p : PState)
    (h : getRole r p = none) : getRole r (setRole r l p) = some l := by
  cases r <;>
    simp_all [setRole, getRole, PState.SetLinkLayer, PState.SetNetworkLayer,
      PState.SetTransportLayer, PState.SetApplicationLayer, PState.SetErrorLayer]

lemma getRole_AddLayer (r : Role) (l : Layer) (p : PState) :
    getRole r (p.AddLayer l) = getRole r p := by
  cases r <;> simp [getRole, PState.AddLayer]

lemma getRole_recover (r : Role) (m : GoErr) (p : PState) :
    getRole r (recoverDecodeError p m) = getRole r p := by
  unfold recoverDecodeError
  split <;> simp [getRole_AddLayer]

lemma eagerDecode_preserve_role :
    ∀ (prog : DProg) (p : PState) (r : Role) (x : Layer),
      getRole r p = some x → getRole r (eagerDecode prog p).1 = some x := by
  intro prog
  induction prog with
  | ret e => intro p r x h; simpa [eagerDecode] using h
  | fault m => intro p r x h; simpa [eagerDecode] using h
  | addLayer l k ih =>
      intro p r x h
      simp only [eagerDecode]
      exact ih _ _ _ (by rw [getRole_AddLayer]; exact h)
  | claimRole r' l k ih =>
      intro p r x h
      simp only [eagerDecode]
      exact ih _ _ _ (getRole_setRole_preserve _ _ _ _ _ h)
  | nextNil k ih =>
      intro p r x h
      simp only [eagerDecode]
      exact ih _ _ _ _ h
  | nextDec d k ihd ihk =>
      intro p r x h
      rw [eagerDecode]
      split
      · exact ihk _ _ _ _ h
      · next lst hlast =>
          split
          · exact ihk _ _ _ _ h
          · have h2 := ihd lst.LayerPayload p r x h
            rcases heq : eagerDecode (d lst.LayerPayload) p with ⟨st2, out⟩
            rw [heq] at h2
            cases out with
            | panicked m => exact h2
            | ret e => exact ihk _ _ _ _ h2

lemma eagerHandle_preserve_role (pr : PState × GoOut) (r : Role) (x : Layer)
    (h : getRole r pr.1 = some x) : getRole r (eagerHandle pr) = some x := by
  obtain ⟨p, out⟩ := pr
  cases out with
  | ret e => cases e <;> simp_all [eagerHandle, getRole_recover]
  | panicked m => simp_all [eagerHandle, getRole_recover]

lemma initialDecode_preserve_role (dec : Decoder) (p : PState) (r : Role) (x : Layer)
    (h : getRole r p = some x) : getRole r (initialDecode dec p) = some x :=
  eagerHandle_preserve_role _ _ _ (eagerDecode_preserve_role _ _ _ _ h)

lemma lazyDecode_preserve_role :
    ∀ (prog : DProg) (ls : LState) (r : Role) (x : Layer),
      getRole r ls.ps = some x → getRole r (lazyDecode prog ls).1.ps = some x := by
  intro prog
  induction prog with
  | ret e => intro ls r x h; simpa [lazyDecode] using h
  | fault m => intro ls r x h; simpa [lazyDecode] using h
  | addLayer l k ih =>
      intro ls r x h
      simp only [lazyDecode]
      exact ih _ _ _ (by rw [getRole_AddLayer]; exact h)
  | claimRole r' l k ih =>
      intro ls r x h
      simp only [lazyDecode]
      exact ih _ _ _ (getRole_setRole_preserve _ _ _ _ _ h)
  | nextNil k ih =>
      intro ls r x h
      simp only [lazyDecode]
      exact ih _ _ _ _ h
  | nextDec d k ihd ihk =>
      intro ls r x h
      simp only [lazyDecode]
      exact ihk none { ls with next := some d } r x h

lemma decodeNextLayer_preserve_role (ls : LState) (r : Role) (x : Layer)
    (h : getRole r ls.ps = some x) : getRole r (decodeNextLayer ls).ps = some x := by
  rw [decodeNextLayer]
  split
  · exact h
  · next nd _ =>
      split
      · exact h
      · have h2 := lazyDecode_preserve_role (nd (payloadOf ls.ps))
          { ls with next := none } r x h
        rcases heq : lazyDecode (nd (payloadOf ls.ps)) { ls with next := none }
          with ⟨ls2, out⟩
        rw [heq] at h2
        cases out with
        | panicked m => simpa [getRole_recover] using h2
        | ret e =>
            cases e with
            | none => exact h2
            | some e => simpa [getRole_recover] using h2

lemma lazyDrain_preserve_role :
    ∀ (n : Nat) (ls : LState) (r : Role) (x : Layer),
      getRole r ls.ps = some x → getRole r (lazyDrain n ls).ps = some x := by
  intro n
  induction n with
  | zero => intro ls r x h; simpa [lazyDrain] using h
  | succ n ih =>
      intro ls r x h
      rw [lazyDrain]
      split
      · exact ih _ _ _ (decodeNextLayer_preserve_role _ _ _ h)
      · exact h

/-- C6: role-pointer assignment is first-write-wins and monotonic. Claiming
a role that is unset installs the layer; claiming an already-claimed role is
a no-op; and no decoding activity of either engine (an eager decode run, the
construction-time `initialDecode`, a lazy decode of a decoder body, a lazy
decode step, or any number of lazy decode steps) ever clears or reassigns a
role pointer once it is set, so the first registered layer is what the
getter returns forever after. -/
theorem roles_first_write_wins_monotonic :
    (∀ (r : Role) (l : Layer) (p : PState),
        getRole r p = none → getRole r (setRole r l p) = some l)
    ∧ (∀ (r : Role) (l : Layer) (p : PState) (x : Layer),
        getRole r p = some x → getRole r (setRole r l p) = some x)
    ∧ (∀ (prog : DProg) (p : PState) (r : Role) (x : Layer),
        getRole r p = some x → getRole r (eagerDecode prog p).1 = some x)
    ∧ (∀ (dec : Decoder) (p : PState) (r : Role) (x : Layer),
        getRole r p = some x → getRole r (initialDecode dec p) = some x)
    ∧ (∀ (prog : DProg) (ls : LState) (r : Role) (x : Layer),
        getRole r ls.ps = some x → getRole r (lazyDecode prog ls).1.ps = some x)
    ∧ (∀ (ls : LState) (r : Role) (x : Layer),
        getRole r ls.ps = some x → getRole r (decodeNextLayer ls).ps = some x)
    ∧ (∀ (n : Nat) (ls : LState) (r : Role) (x : Layer),
        getRole r ls.ps = some x → getRole r (lazyDrain n ls).ps = some x) :=
  ⟨getRole_setRole_none, fun r l p x h => getRole_setRole_preserve r r l p x h,
   eagerDecode_preserve_role, initialDecode_preserve_role,
   lazyDecode_preserve_role, decodeNextLayer_preserve_role,
   lazyDrain_preserve_role⟩

/-- Witness for C6: on a concrete packet where the transport role is claimed
twice, the first claimed layer is installed and the second claim is a
no-op. -/
theorem roles_first_write_wins_monotonic_witness :
    getRole .transport (setRole .transport (.proto (.lt 1) [2])
        (pstate0 [1])) = some (.proto (.lt 1) [2])
    ∧ getRole .transport (setRole .transport (.proto (.lt 9) [])
        (setRole .transport (.proto (.lt 1) [2]) (pstate0 [1])))
      = some (.proto (.lt 1) [2]) :=
  ⟨roles_first_write_wins_monotonic.1 .transport (.proto (.lt 1) [2])
      (pstate0 [1]) (by decide),
   roles_first_write_wins_monotonic.2.1 .transport (.proto (.lt 9) [])
      (setRole .transport (.proto (.lt 1) [2]) (pstate0 [1]))
      (.proto (.lt 1) [2]) (by decide)⟩

/-- A lazy packet with nothing pending never changes: the drain loop exits
immediately. -/
lemma lazyDrain_stable : ∀ (n : Nat) (ls : LState), ls.next = none →
    lazyDrain n ls = ls := by
  intro n ls h
  cases n with
  | zero => rfl
  | succ n => rw [lazyDrain, h]; rfl

/-- Draining composes: `n + m` steps are `n` steps then `m` steps. -/
lemma lazyDrain_add : ∀ (n m : Nat) (ls : LState),
    lazyDrain (n + m) ls = lazyDrain m (lazyDrain n ls) := by
  intro n
  induction n with
  | zero => intro m ls; rw [Nat.zero_add]; rfl
  | succ n ih =>
      intro m ls
      have h1 : n + 1 + m = (n + m) + 1 := by omega
      rw [h1, lazyDrain]
      cases hn : ls.next with
      | none =>
          simp only [Option.isSome_none, Bool.false_eq_true, if_false]
          rw [lazyDrain_stable (n + 1) ls hn, lazyDrain_stable m ls hn]
      | some nd =>
          simp only [Option.isSome_some, if_true]
          conv_rhs => rw [lazyDrain]
          simp only [hn, Option.isSome_some, if_true]
          exact ih m (decodeNextLayer ls)

/-- C4: the eager engine decodes everything synchronously at construction.
`NewPacket` with `Lazy = false` runs the initial decoder on the whole buffer
inside construction, under the recover wrapper; an eager `NextDecoder` call
with a non-empty last-layer payload invokes the requested decoder
immediately within the same call (its returned error handed back to the
caller, its panic propagating); an eager `NextDecoder` call with an empty
last-layer payload returns nil without invoking the decoder, from an
unchanged state; and every eager accessor is a plain projection performing
no decode work. -/
theorem eager_synchronous_chain :
    (∀ (data : List Nat) (dec : Decoder) (noCopy : Bool),
        NewPacket data dec { Lazy := false, NoCopy := noCopy }
          = .eagerP (eagerHandle (eagerDecode (dec data) (pstate0 data))))
    ∧ (∀ (d : Decoder) (k : Option GoErr → DProg) (p : PState) (lst : Layer),
        p.last = some lst → lst.LayerPayload ≠ [] →
        eagerDecode (.nextDec d k) p
          = match eagerDecode (d lst.LayerPayload) p with
            | (st2, .panicked m) => (st2, .panicked m)
            | (st2, .ret e) => eagerDecode (k e) st2)
    ∧ (∀ (d : Decoder) (k : Option GoErr → DProg) (p : PState) (lst : Layer),
        p.last = some lst → lst.LayerPayload = [] →
        eagerDecode (.nextDec d k) p = eagerDecode (k none) p)
    ∧ (∀ p : PState,
        eagerLayers p = p.layers ∧ eagerLinkLayer p = p.link
        ∧ eagerNetworkLayer p = p.network ∧ eagerTransportLayer p = p.transport
        ∧ eagerApplicationLayer p = p.application ∧ eagerErrorLayer p = p.failure) := by
  refine ⟨?_, ?_, ?_, ?_⟩
  · intro data dec noCopy
    rfl
  · intro d k p lst hlast hpl
    rw [eagerDecode, hlast]
    simp only [if_neg hpl]
  · intro d k p lst hlast hpl
    rw [eagerDecode, hlast]
    simp only [if_pos hpl]
  · intro p
    exact ⟨rfl, rfl, rfl, rfl, rfl, rfl⟩

/-- Witness for C4: on a concrete packet whose last layer has payload `[7]`,
an eager `NextDecoder` request for a decoder producing one more layer runs
it immediately; with an empty last payload it is skipped. -/
theorem eager_synchronous_chain_witness :
    NewPacket [5] (fun b => .addLayer (.proto (.lt 1) b) (.ret none))
        { Lazy := false, NoCopy := false }
      = .eagerP (eagerHandle (eagerDecode
          (.addLayer (.proto (.lt 1) [5]) (.ret none)) (pstate0 [5])))
    ∧ eagerDecode
        (.nextDec (fun b => .addLayer (.proto (.lt 2) b) (.ret none))
          (fun e => .ret e))
        ((pstate0 [5]).AddLayer (.proto (.lt 1) [7]))
      = (((pstate0 [5]).AddLayer (.proto (.lt 1) [7])).AddLayer
          (.proto (.lt 2) [7]), .ret none)
    ∧ eagerDecode
        (.nextDec (fun b => .addLayer (.proto (.lt 2) b) (.ret none))
          (fun e => .ret e))
        ((pstate0 [5]).AddLayer (.proto (.lt 1) []))
      = ((pstate0 [5]).AddLayer (.proto (.lt 1) []), .ret none) := by
  refine ⟨eager_synchronous_chain.1 [5] _ false, ?_, ?_⟩
  · rw [eager_synchronous_chain.2.1 _ _ _ (.proto (.lt 1) [7]) rfl (by decide)]
    rfl
  · rw [eager_synchronous_chain.2.2.1 _ _ _ (.proto (.lt 1) []) rfl rfl]
    rfl

/-- C5: one lazy decode step and the accessor loops around it. With nothing
pending, a step is a no-op. With a pending decoder, the step works on the
payload of the last appended layer (the raw buffer if no layer was appended)
and clears the pending pointer first: if that payload is empty the decoder
is not invoked and the pointer stays cleared (fully drained — every further
step is then a no-op), otherwise the pending decoder is invoked on exactly
that payload under the recover wrapper. Each accessor steps only while its
target is unsatisfied and a decoder is pending: a role accessor whose role
pointer is already set, or with nothing pending, returns immediately without
stepping; `Layers` with nothing pending returns immediately; `Layer` whose
type is already present among the decoded layers returns that layer without
stepping; and one accessor iteration with an unset role and a pending
decoder is exactly one decode step. -/
theorem lazy_step_and_accessor_guards :
    (∀ ls : LState, ls.next = none → decodeNextLayer ls = ls)
    ∧ (∀ (ls : LState) (nd : Decoder), ls.next = some nd →
        payloadOf ls.ps = [] → decodeNextLayer ls = { ls with next := none })
    ∧ (∀ (ls : LState) (nd : Decoder), ls.next = some nd →
        payloadOf ls.ps ≠ [] →
        decodeNextLayer ls
          = match lazyDecode (nd (payloadOf ls.ps)) { ls with next := none } with
            | (ls2, .ret none) => ls2
            | (ls2, .ret (some e)) => { ls2 with ps := recoverDecodeError ls2.ps e }
            | (ls2, .panicked m) => { ls2 with ps := recoverDecodeError ls2.ps m })
    ∧ (∀ (r : Role) (n : Nat) (ls : LState), getRole r ls.ps ≠ none →
        lazyRoleLoop r n ls = (getRole r ls.ps, ls))
    ∧ (∀ (r : Role) (n : Nat) (ls : LState), ls.next = none →
        lazyRoleLoop r n ls = (getRole r ls.ps, ls))
    ∧ (∀ (r : Role) (n : Nat) (ls : LState), getRole r ls.ps = none →
        ls.next.isSome = true →
        lazyRoleLoop r (n + 1) ls = lazyRoleLoop r n (decodeNextLayer ls))
    ∧ (∀ (n : Nat) (ls : LState), ls.next = none →
        lazyLayers n ls = (ls.ps.layers, ls))
    ∧ (∀ (t : LType) (fuel : Nat) (ls : LState) (l : Layer),
        ls.ps.layers.find? (fun l' => l'.LayerType = t) = some l →
        lazyLayer t fuel ls = (some l, ls)) := by
  refine ⟨?_, ?_, ?_, ?_, ?_, ?_, ?_, ?_⟩
  · intro ls h
    rw [decodeNextLayer, h]
  · intro ls nd h hpl
    rw [decodeNextLayer, h]
    simp only [if_pos hpl]
  · intro ls nd h hpl
    rw [decodeNextLayer, h]
    simp only [if_neg hpl]
  · intro r n ls h
    cases n with
    | zero => rfl
    | succ n =>
        rw [lazyRoleLoop]
        have : (getRole r ls.ps).isNone = false := by
          cases hg : getRole r ls.ps with
          | none => exact absurd hg h
          | some _ => rfl
        rw [this]
        simp
  · intro r n ls h
    cases n with
    | zero => rfl
    | succ n =>
        rw [lazyRoleLoop, h]
        simp
  · intro r n ls hrole hnext
    rw [lazyRoleLoop]
    have : (getRole r ls.ps).isNone = true := by rw [hrole]; rfl
    rw [this, hnext]
    rfl
  · intro n ls h
    unfold lazyLayers
    rw [lazyDrain_stable n ls h]
  · intro t fuel ls l h
    unfold lazyLayer
    rw [h]

/-- A trivial concrete decoder: adds nothing and returns nil. -/
def retNilDec : Decoder := fun _ => .ret none

/-- A concrete decoder that appends one layer of kind 2 around the buffer it
is handed and returns nil. -/
def addOneDec : Decoder := fun b => .addLayer (.proto (.lt 2) b) (.ret none)

/-- Concrete lazy state: last layer has an empty payload, a decoder pends. -/
def c5lsEmpty : LState :=
  { ps := (pstate0 [1]).AddLayer (.proto (.lt 1) []), next := some retNilDec }

/-- Concrete lazy state: fresh buffer `[1]`, `addOneDec` pending. -/
def c5lsRun : LState := { ps := pstate0 [1], next := some addOneDec }

/-- Concrete lazy state: link role already claimed, a decoder pending. -/
def c5lsLink : LState :=
  { ps := (pstate0 [1]).SetLinkLayer (.proto (.lt 1) [2]), next := some retNilDec }

/-- Concrete lazy state: a kind-1 layer already decoded, a decoder pending. -/
def c5lsKind : LState :=
  { ps := (pstate0 [1]).AddLayer (.proto (.lt 1) [2]), next := some retNilDec }

/-- Witness for C5: concrete checks of the step equations and guards — an
empty-payload step only clears the pending pointer, a non-empty-payload step
runs the pending decoder, a role accessor with its pointer already set does
not step, and `Layer` finds an already-decoded layer without stepping. -/
theorem lazy_step_and_accessor_guards_witness :
    decodeNextLayer c5lsEmpty = { c5lsEmpty with next := none }
    ∧ decodeNextLayer c5lsRun
      = { ps := (pstate0 [1]).AddLayer (.proto (.lt 2) [1]), next := none }
    ∧ lazyRoleLoop .link 5 c5lsLink = (some (.proto (.lt 1) [2]), c5lsLink)
    ∧ lazyLayer (.lt 1) 5 c5lsKind = (some (.proto (.lt 1) [2]), c5lsKind) := by
  refine ⟨?_, ?_, ?_, ?_⟩
  · rw [lazy_step_and_accessor_guards.2.1 c5lsEmpty retNilDec rfl (by rfl)]
  · rw [lazy_step_and_accessor_guards.2.2.1 c5lsRun addOneDec rfl (by decide)]
    rfl
  · exact lazy_step_and_accessor_guards.2.2.2.1 .link 5 c5lsLink (by decide)
  · exact lazy_step_and_accessor_guards.2.2.2.2.2.2.2 (.lt 1) 5 c5lsKind
      (.proto (.lt 1) [2]) (by rfl)

/-- Counterexample for C8: on the lazy engine, a `NextDecoder` call with a
non-nil decoder made before any layer has been appended does not fail with
the "no layer yet" error, and it does change packet-level state — the
decoder is queued as pending. (The eager engine does return that error; the
lazy `NextDecoder` has no such check.) -/
theorem nextdecoder_no_layer_lazy_counterexample :
    (lazyDecode (.nextDec retNilDec (fun e => .ret e))
        { ps := pstate0 [1], next := none }).2 = .ret none
    ∧ (lazyDecode (.nextDec retNilDec (fun e => .ret e))
        { ps := pstate0 [1], next := none }).1.next.isSome = true :=
  ⟨rfl, rfl⟩

/-- C8 amended: `NextDecoder` with a nil decoder returns the "invalid
decoder" error on both engines, synchronously and with no state change;
the "no layer yet" error is returned — again synchronously and with no
state change — by the *eager* engine only; the lazy engine's `NextDecoder`
performs neither check beyond nil and simply queues the decoder, returning
nil, even when no layer has been appended yet. -/
theorem nextdecoder_misuse_errors :
    (∀ (k : Option GoErr → DProg) (p : PState),
        eagerDecode (.nextNil k) p = eagerDecode (k (some nilDecoderError)) p)
    ∧ (∀ (d : Decoder) (k : Option GoErr → DProg) (p : PState), p.last = none →
        eagerDecode (.nextDec d k) p = eagerDecode (k (some noLayersError)) p)
    ∧ (∀ (k : Option GoErr → DProg) (ls : LState),
        lazyDecode (.nextNil k) ls = lazyDecode (k (some nilDecoderError)) ls)
    ∧ (∀ (d : Decoder) (k : Option GoErr → DProg) (ls : LState),
        lazyDecode (.nextDec d k) ls
          = lazyDecode (k none) { ls with next := some d }) := by
  refine ⟨fun k p => rfl, ?_, fun k ls => rfl, fun d k ls => rfl⟩
  intro d k p h
  rw [eagerDecode, h]

/-- Witness for C8 (amended): on a fresh eager packet state with no layers,
a `NextDecoder` request returns the "no layer yet" error to the requesting
decoder. -/
theorem nextdecoder_misuse_errors_witness :
    eagerDecode (.nextDec retNilDec (fun e => .ret e)) (pstate0 [1])
      = (pstate0 [1], .ret (some noLayersError)) := by
  rw [nextdecoder_misuse_errors.2.1 retNilDec (fun e => .ret e) (pstate0 [1]) rfl]
  rfl

/-- C10: on the lazy engine, a later `NextDecoder` call overwrites any
previously queued pending decoder without error — if a decoder requests
`d1` and then `d2` within one decode step, both requests return nil, only
`d2` is pending afterwards, and the following decode step (given a
non-empty payload) invokes `d2`. -/
theorem lazy_nextdecoder_overwrites :
    (∀ (d1 d2 : Decoder) (k : Option GoErr → Option GoErr → DProg) (ls : LState),
        lazyDecode (.nextDec d1 (fun e1 => .nextDec d2 (fun e2 => k e1 e2))) ls
          = lazyDecode (k none none) { ls with next := some d2 })
    ∧ (∀ (d1 d2 : Decoder) (ps : PState), payloadOf ps ≠ [] →
        decodeNextLayer
          (lazyDecode (.nextDec d1 (fun _ => .nextDec d2 (fun _ => .ret none)))
            { ps := ps, next := none }).1
          = match lazyDecode (d2 (payloadOf ps)) { ps := ps, next := none } with
            | (ls2, .ret none) => ls2
            | (ls2, .ret (some e)) => { ls2 with ps := recoverDecodeError ls2.ps e }
            | (ls2, .panicked m) => { ls2 with ps := recoverDecodeError ls2.ps m }) := by
  constructor
  · intro d1 d2 k ls
    rfl
  · intro d1 d2 ps h
    show decodeNextLayer { ps := ps, next := some d2 } = _
    rw [decodeNextLayer]
    simp only [if_neg h]

/-- Witness for C10: with buffer `[1]` and two queued requests, the second
decoder (which appends a kind-2 layer) is the one the next step runs. -/
theorem lazy_nextdecoder_overwrites_witness :
    lazyDecode (.nextDec retNilDec (fun e1 => .nextDec addOneDec
        (fun e2 => .ret none))) { ps := pstate0 [1], next := none }
      = ({ ps := pstate0 [1], next := some addOneDec }, .ret none)
    ∧ decodeNextLayer
        (lazyDecode (.nextDec retNilDec (fun _ => .nextDec addOneDec
          (fun _ => .ret none))) { ps := pstate0 [1], next := none }).1
      = { ps := (pstate0 [1]).AddLayer (.proto (.lt 2) [1]), next := none } := by
  constructor
  · exact lazy_nextdecoder_overwrites.1 retNilDec addOneDec
      (fun e1 e2 => .ret none) { ps := pstate0 [1], next := none }
  · rw [lazy_nextdecoder_overwrites.2 retNilDec addOneDec (pstate0 [1])
      (by decide)]
    rfl

/-- A concrete failure cause. -/
def badLengthMsg : GoErr := "bad length"

/-- A concrete decoder that fails with `badLengthMsg` on every input. -/
def badLengthDec : Decoder := fun _ => .ret (some badLengthMsg)

/-- Evidence for C1: decode failures are indeed caught — construction
completes and the `DecodeFailure` layer holding the cause and the would-be
payload is appended as the final layer — but `recoverDecodeError` never
registers it in the `failure` role pointer (it only calls `AddLayer`, and
nothing else calls `SetErrorLayer`), so `ErrorLayer()` returns nil after the
failure on both engines, contrary to the `ErrorLayer` documentation in the
`Packet` interface. -/
theorem errorlayer_nil_after_caught_failure :
    (initialDecode badLengthDec (pstate0 [1, 2])).layers
      = [.failureL badLengthMsg [1, 2]]
    ∧ (initialDecode badLengthDec (pstate0 [1, 2])).last
      = some (.failureL badLengthMsg [1, 2])
    ∧ eagerErrorLayer (initialDecode badLengthDec (pstate0 [1, 2])) = none
    ∧ (lazyDrain 2 { ps := pstate0 [1, 2], next := some badLengthDec }).ps.layers
      = [.failureL badLengthMsg [1, 2]]
    ∧ (lazyErrorLayer 2 { ps := pstate0 [1, 2], next := some badLengthDec }).1
      = none := by
  refine ⟨rfl, rfl, rfl, rfl, rfl⟩

/-- A concrete panic cause. -/
def boomMsg : GoErr := "boom"

/-- A concrete decoder that appends a kind-1 layer with payload `[2]`,
queues `retNilDec` as next decoder, and then panics. -/
def queueThenPanicDec : Decoder :=
  fun _ => .addLayer (.proto (.lt 1) [2]) (.nextDec retNilDec (fun _ => .fault boomMsg))

/-- Counterexample for C3: on the lazy engine a failing decoder that queued
a next decoder before failing leaves that decoder pending — the catch
appends the `DecodeFailure` layer but does not clear the pending
next-decoder state, so it is not cleared "at the moment of failure". -/
theorem failure_pending_not_cleared_counterexample :
    (decodeNextLayer { ps := pstate0 [1], next := some queueThenPanicDec }).ps.last
      = some (.failureL boomMsg [2])
    ∧ (decodeNextLayer
        { ps := pstate0 [1], next := some queueThenPanicDec }).next.isSome = true :=
  ⟨rfl, rfl⟩

/-- Once the last layer is a `DecodeFailure`, further draining never changes
the packet state. -/
lemma failure_drain_fixed :
    ∀ (n : Nat) (ls : LState) (e : GoErr) (d0 : List Nat),
      ls.ps.last = some (.failureL e d0) → (lazyDrain n ls).ps = ls.ps := by
  intro n
  induction n with
  | zero => intro ls e d0 _; rfl
  | succ n ih =>
      intro ls e d0 h
      rw [lazyDrain]
      cases hn : ls.next with
      | none => rfl
      | some nd =>
          simp only [Option.isSome_some, if_true]
          have hpay : payloadOf ls.ps = [] := by
            unfold payloadOf
            rw [h]
            rfl
          have hstep : decodeNextLayer ls = { ls with next := none } := by
            rw [decodeNextLayer, hn]
            simp only [if_pos hpay]
          rw [hstep]
          exact ih { ls with next := none } e d0 h

/-- C3 amended: a packet whose last layer is a `DecodeFailure` is
observably terminal, but the pending next-decoder state is not cleared at
the moment of failure (see the counterexample) — it may survive the failing
step. Because the failure layer exposes an empty payload, the at most one
further decode step an accessor runs clears the pending pointer without
invoking the queued decoder, and the packet state (layer sequence and all
role pointers) never changes after the failure; an eager packet performs no
decode work in accessors at all. -/
theorem failure_layer_terminal :
    ∀ (ls : LState) (e : GoErr) (d0 : List Nat),
      ls.ps.last = some (.failureL e d0) →
      (ls.next = none → decodeNextLayer ls = ls)
      ∧ (∀ nd, ls.next = some nd → decodeNextLayer ls = { ls with next := none })
      ∧ (∀ n, (lazyDrain n ls).ps = ls.ps) := by
  intro ls e d0 h
  have hpay : payloadOf ls.ps = [] := by
    unfold payloadOf
    rw [h]
    rfl
  refine ⟨?_, ?_, fun n => failure_drain_fixed n ls e d0 h⟩
  · intro hn
    rw [decodeNextLayer, hn]
  · intro nd hn
    rw [decodeNextLayer, hn]
    simp only [if_pos hpay]

/-- Witness for C3 (amended): the state reached right after the failing step
of `queueThenPanicDec` — whose pending decoder survived — never changes its
packet state again; the surviving pending decoder is dropped by the next
step without being invoked. -/
theorem failure_layer_terminal_witness :
    decodeNextLayer (decodeNextLayer
        { ps := pstate0 [1], next := some queueThenPanicDec })
      = { ps := (decodeNextLayer
          { ps := pstate0 [1], next := some queueThenPanicDec }).ps, next := none }
    ∧ (lazyDrain 7 (decodeNextLayer
        { ps := pstate0 [1], next := some queueThenPanicDec })).ps
      = (decodeNextLayer { ps := pstate0 [1], next := some queueThenPanicDec }).ps := by
  constructor
  · exact (failure_layer_terminal _ boomMsg [2] rfl).2.1 retNilDec rfl
  · exact (failure_layer_terminal _ boomMsg [2] rfl).2.2 7

/-- C7: buffer ownership. With `NoCopy = false` the packet's buffer is a
fresh reference holding a copy of the caller's bytes, so writing through the
caller's reference after construction changes neither the packet's `Data()`
(the full view of its buffer) nor any subview of it (layer payloads); with
`NoCopy = true` the packet's buffer *is* the caller's reference, so a write
through the caller's reference is read back verbatim through the packet. -/
theorem nocopy_buffer_aliasing :
    ∀ (m : Mem) (r : Nat), r < m.nextRef →
      ((newPacketBuffer m r false).1.bufs (newPacketBuffer m r false).2
          = m.bufs r)
      ∧ (∀ (v : List Nat) (off len : Nat),
          view (writeBuf (newPacketBuffer m r false).1 r v)
              (newPacketBuffer m r false).2 off len
            = view (newPacketBuffer m r false).1
              (newPacketBuffer m r false).2 off len)
      ∧ (newPacketBuffer m r true).2 = r
      ∧ (∀ v : List Nat,
          (writeBuf (newPacketBuffer m r true).1 r v).bufs
            (newPacketBuffer m r true).2 = v) := by
  intro m r hr
  have hne : m.nextRef ≠ r := by omega
  refine ⟨?_, ?_, rfl, ?_⟩
  · simp [newPacketBuffer, allocBuf]
  · intro v off len
    simp [newPacketBuffer, allocBuf, writeBuf, view, hne]
  · intro v
    simp [newPacketBuffer, writeBuf]

/-- Witness for C7: a two-buffer store where the caller's buffer `0` holds
`[1, 2]`; after construction and an overwrite of buffer `0` with `[9]`, the
copying packet still reads `[1, 2]` while the borrowing packet reads
`[9]`. -/
theorem nocopy_buffer_aliasing_witness :
    ((newPacketBuffer ⟨fun _ => [1, 2], 1⟩ 0 false).1.bufs
        (newPacketBuffer ⟨fun _ => [1, 2], 1⟩ 0 false).2 = [1, 2])
    ∧ view (writeBuf (newPacketBuffer ⟨fun _ => [1, 2], 1⟩ 0 false).1 0 [9])
        (newPacketBuffer ⟨fun _ => [1, 2], 1⟩ 0 false).2 0 2
      = view (newPacketBuffer ⟨fun _ => [1, 2], 1⟩ 0 false).1
        (newPacketBuffer ⟨fun _ => [1, 2], 1⟩ 0 false).2 0 2
    ∧ (writeBuf (newPacketBuffer ⟨fun _ => [1, 2], 1⟩ 0 true).1 0 [9]).bufs
        (newPacketBuffer ⟨fun _ => [1, 2], 1⟩ 0 true).2 = [9] :=
  ⟨(nocopy_buffer_aliasing ⟨fun _ => [1, 2], 1⟩ 0 (by decide)).1,
   (nocopy_buffer_aliasing ⟨fun _ => [1, 2], 1⟩ 0 (by decide)).2.1 [9] 0 2,
   (nocopy_buffer_aliasing ⟨fun _ => [1, 2], 1⟩ 0 (by decide)).2.2.2 [9]⟩

/-- Iterating `NextPacket` over a source of `n` successes yields the decoded
packets with their capture info overwritten, consuming the source. -/
lemma runNextPackets_ok :
    ∀ (items : List (List Nat × CaptureInfo)) (dec : Decoder)
      (opts : DecodeOptions) (rest : List ReadResult),
      runNextPackets items.length
          ⟨items.map (fun x => .ok x.1 x.2) ++ rest, dec, opts⟩
        = (items.map
            (fun x => (some (setCapInfo (NewPacket x.1 dec opts) x.2), none)),
           ⟨rest, dec, opts⟩) := by
  intro items
  induction items with
  | nil => intro dec opts rest; rfl
  | cons x xs ih =>
      intro dec opts rest
      simp only [List.map_cons, List.length_cons, List.cons_append]
      rw [runNextPackets]
      have h1 : NextPacket ⟨.ok x.1 x.2 :: (xs.map (fun x => .ok x.1 x.2) ++ rest),
          dec, opts⟩
          = ((some (setCapInfo (NewPacket x.1 dec opts) x.2), none),
             ⟨xs.map (fun x => .ok x.1 x.2) ++ rest, dec, opts⟩) := rfl
      simp only [h1, ih dec opts rest]

/-- The channel transcript over a source of `n` successes followed by
end-of-stream is exactly the `n` decoded packets. -/
lemma packetsLoop_ok :
    ∀ (items : List (List Nat × CaptureInfo)) (dec : Decoder)
      (opts : DecodeOptions),
      packetsLoop dec opts (items.map (fun x => .ok x.1 x.2))
        = items.map (fun x => setCapInfo (NewPacket x.1 dec opts) x.2) := by
  intro items
  induction items with
  | nil => intro dec opts; rfl
  | cons x xs ih =>
      intro dec opts
      simp only [List.map_cons]
      rw [packetsLoop, ih dec opts]

/-- C9: streaming termination and error pass-through. For a source yielding
exactly `n` successes and then end-of-stream: the first `n` `NextPacket`
calls each return a (non-nil) packet whose capture info has been overwritten
with the source's metadata, paired with a nil error, and exhaust the source;
the `(n+1)`-th call returns the untouched `io.EOF` with no packet; the
channel of `Packets` yields exactly those `n` packets and then closes.
A non-end-of-stream source error is returned untouched (with no packet) by
`NextPacket`, but the channel loop silently discards it and keeps reading. -/
theorem streaming_termination :
    ∀ (items : List (List Nat × CaptureInfo)) (dec : Decoder)
      (opts : DecodeOptions),
      (runNextPackets items.length
          ⟨items.map (fun x => .ok x.1 x.2), dec, opts⟩
        = (items.map
            (fun x => (some (setCapInfo (NewPacket x.1 dec opts) x.2), none)),
           ⟨[], dec, opts⟩))
      ∧ (NextPacket ⟨[], dec, opts⟩).1 = (none, some .eof)
      ∧ packetsToChannel ⟨items.map (fun x => .ok x.1 x.2), dec, opts⟩
        = items.map (fun x => setCapInfo (NewPacket x.1 dec opts) x.2)
      ∧ (∀ (msg : String) (rest : List ReadResult),
          (NextPacket ⟨.err (.other msg) :: rest, dec, opts⟩).1
            = (none, some (.other msg)))
      ∧ (∀ (msg : String) (rest : List ReadResult),
          packetsToChannel ⟨.err (.other msg) :: rest, dec, opts⟩
            = packetsToChannel ⟨rest, dec, opts⟩) := by
  intro items dec opts
  refine ⟨?_, rfl, packetsLoop_ok items dec opts, fun msg rest => rfl,
    fun msg rest => rfl⟩
  have := runNextPackets_ok items dec opts []
  simpa using this

/-- A concrete decoder that rejects every input with an error. -/
def tooShortMsg : GoErr := "packet too short"

/-- A concrete decoder failing on every input, as a real protocol decoder
does on a truncated buffer. -/
def tooShortDec : Decoder := fun _ => .ret (some tooShortMsg)

/-- Counterexample for C2: on the empty input, the eager engine still
invokes the initial decoder (producing a `DecodeFailure` layer when it
errors), while the lazy engine's first decode step sees an empty buffer and
drops the pending decoder without ever invoking it — so the fully drained
lazy packet and the eager packet of the same bytes and options have
different layer sequences. -/
theorem eager_lazy_equivalence_counterexample :
    lazyDrain 1 { ps := pstate0 [], next := some tooShortDec }
      = { ps := pstate0 [], next := none }
    ∧ (initialDecode tooShortDec (pstate0 [])).layers
      = [.failureL tooShortMsg []]
    ∧ (initialDecode tooShortDec (pstate0 [])).layers
      ≠ (lazyDrain 1 { ps := pstate0 [], next := some tooShortDec }).ps.layers :=
  ⟨rfl, rfl, by decide⟩

/-
The eager/lazy equivalence on well-behaved decoders. `eagerResume dec p`
is what the eager engine contributes from a mid-chain state `p` whose next
decoder is `dec`: nothing if the working payload is empty (the eager
`NextDecoder` skips the call), otherwise the recover-wrapped run of `dec`
on that payload — at the top of the chain this is exactly `initialDecode`.
-/

/-- The eager engine's processing of decoder `dec` from state `p`. -/
def eagerResume (dec : Decoder) (p : PState) : PState :=
  if payloadOf p = [] then p
  else eagerHandle (eagerDecode (dec (payloadOf p)) p)

/-- Interpret a well-behaved decoder's action list on the packet state. -/
def applyActs : List BAct → PState → PState
  | [], p => p
  | .add l :: rest, p => applyActs rest (p.AddLayer l)
  | .claim r l :: rest, p => applyActs rest (setRole r l p)

lemma payloadOf_some (p : PState) (lst : Layer) (h : p.last = some lst) :
    payloadOf p = lst.LayerPayload := by
  unfold payloadOf
  rw [h]

lemma setRole_last (r : Role) (l : Layer) (p : PState) :
    (setRole r l p).last = p.last := by
  cases r <;>
    simp only [setRole, PState.SetLinkLayer, PState.SetNetworkLayer,
      PState.SetTransportLayer, PState.SetApplicationLayer,
      PState.SetErrorLayer] <;>
    split <;> rfl

lemma applyActs_last_isSome :
    ∀ (acts : List BAct) (p : PState), p.last.isSome = true →
      ((applyActs acts p).last).isSome = true := by
  intro acts
  induction acts with
  | nil => intro p h; exact h
  | cons a rest ih =>
      intro p h
      cases a with
      | add l => exact ih _ rfl
      | claim r l =>
          refine ih _ ?_
          rw [setRole_last]
          exact h

lemma acts_add_last :
    ∀ (acts : List BAct) (p : PState) (l : Layer), BAct.add l ∈ acts →
      ((applyActs acts p).last).isSome = true := by
  intro acts
  induction acts with
  | nil => intro p l h; cases h
  | cons a rest ih =>
      intro p l h
      cases a with
      | add l' => exact applyActs_last_isSome rest _ rfl
      | claim r l' =>
          rcases List.mem_cons.1 h with h1 | h1
          · cases h1
          · exact ih _ l h1

lemma eager_acts :
    ∀ (acts : List BAct) (t : DProg) (p : PState),
      eagerDecode (actsToProg acts t) p = eagerDecode t (applyActs acts p) := by
  intro acts
  induction acts with
  | nil => intro t p; rfl
  | cons a rest ih =>
      intro t p
      cases a with
      | add l => exact ih t (p.AddLayer l)
      | claim r l => exact ih t (setRole r l p)

lemma lazy_acts :
    ∀ (acts : List BAct) (t : DProg) (ls : LState),
      lazyDecode (actsToProg acts t) ls
        = lazyDecode t { ls with ps := applyActs acts ls.ps } := by
  intro acts
  induction acts with
  | nil => intro t ls; rfl
  | cons a rest ih =>
      intro t ls
      cases a with
      | add l => exact ih t { ls with ps := ls.ps.AddLayer l }
      | claim r l => exact ih t { ls with ps := setRole r l ls.ps }

/-- The one-step equation of `decodeNextLayer` with a pending decoder. -/
lemma decodeNextLayer_some (nd : Decoder) (ls : LState) (h : ls.next = some nd) :
    decodeNextLayer ls
      = if payloadOf ls.ps = [] then { ls with next := none }
        else
          match lazyDecode (nd (payloadOf ls.ps)) { ls with next := none } with
          | (ls2, .ret none) => ls2
          | (ls2, .ret (some e)) => { ls2 with ps := recoverDecodeError ls2.ps e }
          | (ls2, .panicked m) => { ls2 with ps := recoverDecodeError ls2.ps m } := by
  rw [decodeNextLayer, h]

/-- One drain iteration with a pending decoder is one decode step. -/
lemma lazyDrain_one (nd : Decoder) (ls : LState) (h : ls.next = some nd) :
    lazyDrain 1 ls = decodeNextLayer ls := by
  rw [lazyDrain, h]
  rfl

/-- Prefix a decode step in front of a draining run. -/
lemma drainsTo_of_step (ls : LState) (nd : Decoder) (h : ls.next = some nd)
    (q : PState) (hd : DrainsTo (decodeNextLayer ls) q) : DrainsTo ls q := by
  obtain ⟨m, hm⟩ := hd
  refine ⟨1 + m, ?_⟩
  rw [lazyDrain_add 1 m ls, lazyDrain_one nd ls h, hm]

/-- Handling a tail `NextDecoder` node in the eager engine is exactly
resuming the chained decoder from the current state, provided a layer has
been appended. -/
lemma eagerHandle_chain (dn : Decoder) (p' : PState) (lst : Layer)
    (hl : p'.last = some lst) :
    eagerHandle (eagerDecode (.nextDec dn (fun e => .ret e)) p')
      = eagerResume dn p' := by
  rw [eagerDecode, hl]
  by_cases hpl : lst.LayerPayload = []
  · simp only [if_pos hpl]
    unfold eagerResume
    rw [payloadOf_some p' lst hl, if_pos hpl]
    rfl
  · simp only [if_neg hpl]
    unfold eagerResume
    rw [payloadOf_some p' lst hl, if_neg hpl]
    rcases heq : eagerDecode (dn lst.LayerPayload) p' with ⟨st2, out⟩
    cases out with
    | panicked m => rfl
    | ret e => cases e <;> rfl

/-- A lazy step on an empty working payload just drops the pending decoder;
the eager engine contributes nothing either. -/
lemma drain_step_empty (dec : Decoder) (p : PState) (hpay : payloadOf p = []) :
    DrainsTo { ps := p, next := some dec } (eagerResume dec p) := by
  refine ⟨1, ?_⟩
  rw [lazyDrain_one dec _ rfl, decodeNextLayer_some dec _ rfl]
  dsimp only
  rw [if_pos hpay]
  rw [eagerResume, if_pos hpay]

/-- A decoder body that runs its actions and returns: the single lazy step
ends drained in exactly the state the eager engine reaches. -/
lemma drain_step_ret (dec : Decoder) (p : PState) (hpay : payloadOf p ≠ [])
    (acts : List BAct) (e : Option GoErr)
    (hbody : dec (payloadOf p) = actsToProg acts (.ret e)) :
    DrainsTo { ps := p, next := some dec } (eagerResume dec p) := by
  refine ⟨1, ?_⟩
  rw [lazyDrain_one dec _ rfl, decodeNextLayer_some dec _ rfl]
  dsimp only
  rw [if_neg hpay, hbody, lazy_acts]
  rw [eagerResume, if_neg hpay, hbody, eager_acts]
  cases e with
  | none => rfl
  | some err => rfl

/-- A decoder body that runs its actions and panics: the single lazy step
ends drained in exactly the state the eager engine reaches. -/
lemma drain_step_fault (dec : Decoder) (p : PState) (hpay : payloadOf p ≠ [])
    (acts : List BAct) (m : GoErr)
    (hbody : dec (payloadOf p) = actsToProg acts (.fault m)) :
    DrainsTo { ps := p, next := some dec } (eagerResume dec p) := by
  refine ⟨1, ?_⟩
  rw [lazyDrain_one dec _ rfl, decodeNextLayer_some dec _ rfl]
  dsimp only
  rw [if_neg hpay, hbody, lazy_acts]
  rw [eagerResume, if_neg hpay, hbody, eager_acts]
  rfl

/-- Core equivalence: from any packet state, fully draining a pending
well-behaved decoder reaches exactly the state the eager engine computes
for the same decoder. -/
lemma ndec_drain_equiv :
    ∀ (n : Nat) (d : NDec n), NWF n d → ∀ p : PState,
      DrainsTo { ps := p, next := some (toDec n d) } (eagerResume (toDec n d) p) := by
  intro n
  induction n with
  | zero =>
      intro d _ p
      by_cases hpay : payloadOf p = []
      · exact drain_step_empty _ p hpay
      · cases hfin : (d (payloadOf p)).fin with
        | ret e =>
            refine drain_step_ret _ p hpay (d (payloadOf p)).acts e ?_
            simp only [toDec]
            rw [hfin]
        | fault m =>
            refine drain_step_fault _ p hpay (d (payloadOf p)).acts m ?_
            simp only [toDec]
            rw [hfin]
        | chain x => exact x.elim
  | succ n ih =>
      intro d hwf p
      by_cases hpay : payloadOf p = []
      · exact drain_step_empty _ p hpay
      · cases hfin : (d (payloadOf p)).fin with
        | ret e =>
            refine drain_step_ret _ p hpay (d (payloadOf p)).acts e ?_
            simp only [toDec]
            rw [hfin]
        | fault m =>
            refine drain_step_fault _ p hpay (d (payloadOf p)).acts m ?_
            simp only [toDec]
            rw [hfin]
        | chain d' =>
            have hw := hwf (payloadOf p)
            rw [hfin] at hw
            obtain ⟨⟨l, hmem⟩, hwf'⟩ := hw
            have hlast : ((applyActs (d (payloadOf p)).acts p).last).isSome = true :=
              acts_add_last _ p l hmem
            obtain ⟨lst, hlst⟩ := Option.isSome_iff_exists.1 hlast
            have hbody : toDec (n + 1) d (payloadOf p)
                = actsToProg (d (payloadOf p)).acts
                  (.nextDec (toDec n d') (fun e => .ret e)) := by
              simp only [toDec]
              rw [hfin]
            have hstep : decodeNextLayer { ps := p, next := some (toDec (n + 1) d) }
                = { ps := applyActs (d (payloadOf p)).acts p,
                    next := some (toDec n d') } := by
              rw [decodeNextLayer_some _ _ rfl]
              dsimp only
              rw [if_neg hpay, hbody, lazy_acts]
              rfl
            have heag : eagerResume (toDec (n + 1) d) p
                = eagerResume (toDec n d') (applyActs (d (payloadOf p)).acts p) := by
              rw [eagerResume, if_neg hpay, hbody, eager_acts]
              exact eagerHandle_chain (toDec n d') _ lst hlst
            rw [heag]
            refine drainsTo_of_step _ (toDec (n + 1) d) rfl _ ?_
            rw [hstep]
            exact ih d' hwf' (applyActs (d (payloadOf p)).acts p)

/-- C2 amended: for well-behaved decoders — each decode call performs its
layer/role registrations first, appends at least one layer before chaining,
requests the next decoder (if any) as its final action and returns that
request's result — and a *non-empty* input, constructing with `Lazy = true`
and fully draining reaches exactly the packet state that construction with
`Lazy = false` produces: identical layer sequences, identical role
pointers, identical error-layer state. Moreover the drained state is
unique. (The unrestricted claim is false: see the counterexample, where an
empty input makes the engines differ because the eager engine still invokes
the initial decoder while the lazy engine never does; decoders that act
after chaining or swallow the chained error also separate the engines.) -/
theorem eager_lazy_equivalence_wellbehaved :
    ∀ (n : Nat) (d : NDec n) (input : List Nat) (nc : Bool),
      NWF n d → input ≠ [] →
      NewPacket input (toDec n d) { Lazy := true, NoCopy := nc }
        = .lazyP { ps := pstate0 input, next := some (toDec n d) }
      ∧ NewPacket input (toDec n d) { Lazy := false, NoCopy := nc }
        = .eagerP (initialDecode (toDec n d) (pstate0 input))
      ∧ DrainsTo { ps := pstate0 input, next := some (toDec n d) }
          (initialDecode (toDec n d) (pstate0 input))
      ∧ (∀ q : PState,
          DrainsTo { ps := pstate0 input, next := some (toDec n d) } q →
          q = initialDecode (toDec n d) (pstate0 input)) := by
  intro n d input nc hwf hne
  have hres : eagerResume (toDec n d) (pstate0 input)
      = initialDecode (toDec n d) (pstate0 input) := by
    rw [eagerResume]
    rw [if_neg (show ¬payloadOf (pstate0 input) = [] from hne)]
    rfl
  have hmain := ndec_drain_equiv n d hwf (pstate0 input)
  rw [hres] at hmain
  refine ⟨rfl, rfl, hmain, ?_⟩
  intro q hq
  obtain ⟨m1, h1⟩ := hq
  obtain ⟨m2, h2⟩ := hmain
  have e1 : lazyDrain (m1 + m2) { ps := pstate0 input, next := some (toDec n d) }
      = { ps := q, next := none } := by
    rw [lazyDrain_add, h1, lazyDrain_stable m2 _ rfl]
  have e2 : lazyDrain (m2 + m1) { ps := pstate0 input, next := some (toDec n d) }
      = { ps := initialDecode (toDec n d) (pstate0 input), next := none } := by
    rw [lazyDrain_add, h2, lazyDrain_stable m1 _ rfl]
  have e3 : ({ ps := q, next := none } : LState)
      = { ps := initialDecode (toDec n d) (pstate0 input), next := none } := by
    rw [← e1, Nat.add_comm, e2]
  exact congrArg LState.ps e3

/-- A concrete depth-0 well-behaved decoder: appends one kind-2 layer. -/
def wDec0 : NDec 0 := fun _ => { acts := [.add (.proto (.lt 2) [])], fin := .ret none }

/-- A concrete depth-1 well-behaved decoder: appends a kind-1 layer around
the tail of its buffer, claims the link role, and chains to `wDec0`. -/
def wDec1 : NDec 1 := fun b =>
  { acts := [.add (.proto (.lt 1) (b.drop 1)), .claim .link (.proto (.lt 1) (b.drop 1))],
    fin := .chain wDec0 }

/-- Witness for C2 (amended): the concrete two-decoder chain on input
`[5, 6]` satisfies the hypotheses, and its drained lazy state equals its
eager state. -/
theorem eager_lazy_equivalence_wellbehaved_witness :
    NWF 1 wDec1 ∧ ([5, 6] : List Nat) ≠ []
    ∧ DrainsTo { ps := pstate0 [5, 6], next := some (toDec 1 wDec1) }
        (initialDecode (toDec 1 wDec1) (pstate0 [5, 6])) := by
  have hwf : NWF 1 wDec1 :=
    fun b => ⟨⟨.proto (.lt 1) (b.drop 1), List.mem_cons_self _ _⟩, trivial⟩
  exact ⟨hwf, by decide,
    (eager_lazy_equivalence_wellbehaved 1 wDec1 [5, 6] false hwf (by decide)).2.2.1⟩
